import Mathlib

/-
Verification of the ngit note-export pipeline (src/index.js, retry version).
JavaScript strings are modelled as lists of characters; the filesystem and
database effects are modelled as explicit event traces.
-/

namespace Ngit

/-- Shorthand turning a Lean string literal into the character-list model. -/
def toL (s : String) : List Char := s.toList

/-- Whitespace recognized by JavaScript String.prototype.trim and by the
regex class backslash-s: WhiteSpace plus LineTerminator code points. -/
def isJsWs (c : Char) : Bool :=
  c.toNat = 0x20 || c.toNat = 0x09 || c.toNat = 0x0A || c.toNat = 0x0B ||
  c.toNat = 0x0C || c.toNat = 0x0D || c.toNat = 0xA0 || c.toNat = 0x1680 ||
  (0x2000 <= c.toNat && c.toNat <= 0x200A) || c.toNat = 0x2028 ||
  c.toNat = 0x2029 || c.toNat = 0x202F || c.toNat = 0x205F ||
  c.toNat = 0x3000 || c.toNat = 0xFEFF

/-- Leading-whitespace removal, first half of JS trim. -/
def trimStart (l : List Char) : List Char := l.dropWhile isJsWs

/-- Trailing-whitespace removal, second half of JS trim. -/
def trimEnd (l : List Char) : List Char := (l.reverse.dropWhile isJsWs).reverse

/-- Model of JavaScript String.prototype.trim. -/
def jsTrim (l : List Char) : List Char := trimEnd (trimStart l)

/-- First index at which `needle` occurs in `hay`, scanning left to right. -/
def findSub (needle : List Char) : List Char → Option Nat
  | [] => if needle.isEmpty then some 0 else none
  | h :: t =>
    if needle.isPrefixOf (h :: t) then some 0
    else (findSub needle t).map (· + 1)

/-- Model of JavaScript String.prototype.indexOf with a fromIndex argument;
returns none where JS returns -1. -/
def indexOfFrom (hay needle : List Char) (start : Nat) : Option Nat :=
  (findSub needle (hay.drop start)).map (· + start)

/-- Characters removed by the control-character strip in convertToMarkdown:
the regex class u0000-u0009, u000B-u001F, u007F-u009F (newline kept). -/
def isStrippedControl (c : Char) : Bool :=
  c.toNat ≤ 0x09 || (0x0B ≤ c.toNat && c.toNat ≤ 0x1F) ||
  (0x7F ≤ c.toNat && c.toNat ≤ 0x9F)

/-- Global replacement of a single-character class by the empty string:
the control-character strip pass. -/
def stripControl (l : List Char) : List Char := l.filter (fun c => !isStrippedControl c)

/-- Line terminators after which a multiline regex caret matches. -/
def isLineTerm (c : Char) : Bool :=
  c.toNat = 0x0A || c.toNat = 0x0D || c.toNat = 0x2028 || c.toNat = 0x2029

/-- Whether the character at index k of l is a line terminator. -/
def isLineTermAt (l : List Char) (k : Nat) : Bool :=
  match l[k]? with
  | some c => isLineTerm c
  | none => false

/-- Generic left-to-right global regex replacement: at each position try the
matcher; on a match of n+1 characters emit the replacement and resume after
the match, otherwise keep the character and advance by one. -/
def replaceScan (m : List Char → Option (List Char × Nat)) : List Char → List Char
  | [] => []
  | c :: rest =>
    match m (c :: rest) with
    | some (rep, k + 1) => rep ++ replaceScan m (rest.drop k)
    | _ => c :: replaceScan m rest
termination_by l => l.length
decreasing_by
  · simp only [List.length_drop, List.length_cons]; omega
  · simp only [List.length_cons]; omega

/-- Anchored variant of replaceScan for multiline caret-anchored patterns: the
matcher is tried only at the string start and right after a line terminator. -/
def replaceScanA (m : List Char → Option (List Char × Nat)) :
    Bool → List Char → List Char
  | _, [] => []
  | atStart, c :: rest =>
    match (if atStart then m (c :: rest) else none) with
    | some (rep, k + 1) => rep ++ replaceScanA m (isLineTermAt (c :: rest) k) (rest.drop k)
    | _ => c :: replaceScanA m (isLineTerm c) rest
termination_by _ l => l.length
decreasing_by
  · simp only [List.length_drop, List.length_cons]; omega
  · simp only [List.length_cons]; omega

/-- Opening and closing brace characters of the rich-text wrappers. -/
def lbrace : Char := '\x7b'

/-- Closing brace character. -/
def rbrace : Char := '\x7d'

/-- Matcher for a pattern of the form: literal opening tag, then one or more
non-closing-brace characters, then a closing brace; mk builds the
replacement from the captured content. Models the bold, italic,
strikethrough and residual-formatting regexes. -/
def matchBraceTag (tagLit : List Char) (mk : List Char → List Char)
    (l : List Char) : Option (List Char × Nat) :=
  if tagLit.isPrefixOf l then
    let rest := l.drop tagLit.length
    let content := rest.takeWhile (fun c => c ≠ rbrace)
    if content.isEmpty then none
    else
      match rest.drop content.length with
      | c :: _ =>
        if c = rbrace then some (mk content, tagLit.length + content.length + 1)
        else none
      | [] => none
  else none

/-- Bold pass: the wrapper tagged with a backslash-b. -/
def matchBold : List Char → Option (List Char × Nat) :=
  matchBraceTag (lbrace :: toL "\\b ") (fun content => toL "**" ++ content ++ toL "**")

/-- Italic pass: the wrapper tagged with a backslash-i. -/
def matchItalic : List Char → Option (List Char × Nat) :=
  matchBraceTag (lbrace :: toL "\\i ") (fun content => toL "_" ++ content ++ toL "_")

/-- Strikethrough pass: the wrapper tagged with backslash-strike. -/
def matchStrike : List Char → Option (List Char × Nat) :=
  matchBraceTag (lbrace :: toL "\\strike ") (fun content => toL "~~" ++ content ++ toL "~~")

/-- Residual pass: any remaining brace-wrapped formatting is dropped. -/
def matchResidual : List Char → Option (List Char × Nat) :=
  matchBraceTag [lbrace] (fun _ => [])

/-- Decimal digit test, the regex class backslash-d. -/
def isDigitCh (c : Char) : Bool := 0x30 ≤ c.toNat && c.toNat ≤ 0x39

/-- Numeric value of a digit string, as computed by parseInt on the digits
captured from the font-size tag. -/
def natOfDigits (ds : List Char) : Nat :=
  ds.foldl (fun n c => n * 10 + (c.toNat - 0x30)) 0

/-- Heading level for a font size: clamp of floor of (48 - size) / 4 to the
range 1..6, exactly as computed with Math.max, Math.min and Math.floor. -/
def headingLevel (size : Nat) : Int :=
  max 1 (min 6 (Int.fdiv (48 - (size : Int)) 4))

/-- Bulleted-list pass: caret, whitespace, bullet character, whitespace. -/
def matchBullet (l : List Char) : Option (List Char × Nat) :=
  let ws := l.takeWhile isJsWs
  match l.drop ws.length with
  | c :: rest2 =>
    if c = '•' then
      let ws2 := rest2.takeWhile isJsWs
      if ws2.isEmpty then none
      else some (toL "- ", ws.length + 1 + ws2.length)
    else none
  | [] => none

/-- Numbered-list pass: caret, whitespace, digits, dot, whitespace, replaced
by the captured digits, a dot and a space. -/
def matchNumbered (l : List Char) : Option (List Char × Nat) :=
  let ws := l.takeWhile isJsWs
  let rest := l.drop ws.length
  let ds := rest.takeWhile isDigitCh
  if ds.isEmpty then none
  else
    match rest.drop ds.length with
    | c :: rest2 =>
      if c = '.' then
        let ws2 := rest2.takeWhile isJsWs
        if ws2.isEmpty then none
        else some (ds ++ toL ". ", ws.length + ds.length + 1 + ws2.length)
      else none
    | [] => none

/-- Heading pass: brace, backslash-fs, digits, space, content, closing brace;
replaced by level hash marks, a space and the content. -/
def matchHeading (l : List Char) : Option (List Char × Nat) :=
  if (lbrace :: toL "\\fs").isPrefixOf l then
    let rest := l.drop 4
    let ds := rest.takeWhile isDigitCh
    if ds.isEmpty then none
    else
      match rest.drop ds.length with
      | ' ' :: rest2 =>
        let content := rest2.takeWhile (fun c => c ≠ rbrace)
        if content.isEmpty then none
        else
          match rest2.drop content.length with
          | c :: _ =>
            if c = rbrace then
              let level := headingLevel (natOfDigits ds)
              some (List.replicate level.toNat '#' ++ ' ' :: content,
                    4 + ds.length + 1 + content.length + 1)
            else none
          | [] => none
      | _ => none
  else none

/-- Hyperlink pass: the field construct carrying a URL and display text,
replaced by the bracketed display text and parenthesized URL. -/
def matchHyperlink (l : List Char) : Option (List Char × Nat) :=
  let lit1 := lbrace :: toL "\\field" ++ lbrace :: toL "\\*\\fldinst HYPERLINK \""
  if lit1.isPrefixOf l then
    let rest := l.drop lit1.length
    let url := rest.takeWhile (fun c => c ≠ '"')
    if url.isEmpty then none
    else
      let lit2 := '"' :: rbrace :: lbrace :: toL "\\fldrslt "
      let rest2 := rest.drop url.length
      if lit2.isPrefixOf rest2 then
        let rest3 := rest2.drop lit2.length
        let txt := rest3.takeWhile (fun c => c ≠ rbrace)
        if txt.isEmpty then none
        else
          match rest3.drop txt.length with
          | c1 :: c2 :: _ =>
            if c1 = rbrace ∧ c2 = rbrace then
              some (toL "[" ++ txt ++ toL "](" ++ url ++ toL ")",
                    lit1.length + url.length + lit2.length + txt.length + 2)
            else none
          | _ => none
      else none
  else none

/-- Zero-width-space removal pass. -/
def removeZeroWidth (l : List Char) : List Char := l.filter (fun c => c.toNat ≠ 0x200B)

/-- The rich-text to Markdown substitution chain applied to the extracted
content region, in the order of the source's replace calls. -/
def renderRich (content : List Char) : List Char :=
  jsTrim (removeZeroWidth (replaceScan matchResidual (replaceScan matchHyperlink
    (replaceScan matchHeading (replaceScanA matchNumbered true
      (replaceScanA matchBullet true (replaceScan matchStrike
        (replaceScan matchItalic (replaceScan matchBold (stripControl content))))))))))

/-- The five-character binary start marker searched for first. -/
def startMarker : List Char :=
  ['\u0008', '\u0000', '\u0010', '\u0000', '\u001A']

/-- The eleven-character binary end marker delimiting the content region. -/
def endMarker : List Char :=
  ['\u0004', '\u0008', '\u0000', '\u0010', '\u0000', '\u0010', '\u0000',
   '\u001A', '\u0004', '\u0008', '\u0000']

/-- Model of convertToMarkdown: marker-bounded extraction with pass-through
fallbacks, then the rich-text substitution chain. -/
def convertToMarkdown (input : List Char) : List Char :=
  match indexOfFrom input startMarker 0 with
  | none => jsTrim input
  | some startIndex =>
    match indexOfFrom input ['\u0012'] (startIndex + 1) with
    | none => jsTrim input
    | some contentStart =>
      let content :=
        match indexOfFrom input endMarker (contentStart + 2) with
        | none => input.drop (contentStart + 2)
        | some contentEnd =>
          (input.drop (contentStart + 2)).take (contentEnd - (contentStart + 2))
      renderRich content

/-- ASCII alphanumeric test: the case-insensitive regex class a-z, 0-9. -/
def isAsciiAlnum (c : Char) : Bool :=
  (0x61 ≤ c.toNat && c.toNat ≤ 0x7A) || (0x41 ≤ c.toNat && c.toNat ≤ 0x5A) ||
  (0x30 ≤ c.toNat && c.toNat ≤ 0x39)

/-- Title sanitization: global replacement of every character outside the
case-insensitive class a-z, 0-9 by an underscore, one character at a time. -/
def sanitizeTitle (t : List Char) : List Char :=
  t.map (fun c => if isAsciiAlnum c then c else '_')

/-- Character for one decimal digit value. -/
def digitCh (d : Nat) : Char :=
  if d = 0 then '0' else if d = 1 then '1' else if d = 2 then '2'
  else if d = 3 then '3' else if d = 4 then '4' else if d = 5 then '5'
  else if d = 6 then '6' else if d = 7 then '7' else if d = 8 then '8' else '9'

/-- Fueled decimal printer accumulating digits from the right. -/
def natDecimalAux : Nat → Nat → List Char → List Char
  | 0, _, acc => acc
  | f + 1, n, acc =>
    if n = 0 then acc else natDecimalAux f (n / 10) (digitCh (n % 10) :: acc)

/-- Decimal representation of a natural number. -/
def natDecimal (n : Nat) : List Char :=
  if n = 0 then ['0'] else natDecimalAux n n []

/-- Decimal representation of an integer, as produced by JavaScript template
interpolation of an integer-valued number. -/
def intDecimal : Int → List Char
  | .ofNat m => natDecimal m
  | .negSucc m => '-' :: natDecimal (m + 1)

/-- Destination file name for a note: the key, a separator, the sanitized
title, and the markdown extension. -/
def fileName (key : Int) (title : List Char) : List Char :=
  intDecimal key ++ toL " - " ++ sanitizeTitle title ++ toL ".md"

/-- Filesystem paths are modelled as lists of path segments; the roots handed
to the exporter (repository path, export directory, temp directory) are
assumed to be already-normalized absolute paths. -/
abbrev Path := List (List Char)

/-- Split a raw path string on the separator character. -/
def splitSlash : List Char → List (List Char)
  | [] => [[]]
  | c :: rest =>
    if c = '/' then [] :: splitSlash rest
    else
      match splitSlash rest with
      | [] => [[c]]
      | s :: ss => (c :: s) :: ss

/-- One normalization step of path joining: empty and current-directory
segments are dropped, a parent-directory segment pops, anything else is
appended. -/
def normStep (acc : Path) (seg : List Char) : Path :=
  if seg = [] ∨ seg = ['.'] then acc
  else if seg = ['.', '.'] then acc.dropLast
  else acc ++ [seg]

/-- Model of path.join of a normalized base path and one raw string. -/
def pathJoin (base : Path) (s : List Char) : Path :=
  (splitSlash s).foldl normStep base

/-- Error value thrown by a JavaScript callee, with its optional code. -/
structure JsError where
  code : Option (List Char)
  message : List Char
deriving DecidableEq, Repr

/-- A note's raw payload: either a valid gzip blob holding some text, a blob
the inflater rejects with the data-error code (locked or corrupt), or a
blob failing with some other error. -/
inductive Payload
  | gzipped (text : List Char)
  | corruptZ
  | failOther (e : JsError)
deriving DecidableEq, Repr

/-- Model of the promisified zlib gunzip applied to a payload buffer. -/
def gunzip : Payload → Except JsError (List Char)
  | .gzipped t => .ok t
  | .corruptZ => .error ⟨some (toL "Z_DATA_ERROR"), toL "incorrect header check"⟩
  | .failOther e => .error e

/-- One row produced by the notes join query. -/
structure NoteRecord where
  key : Int
  folder : List Char
  data : Payload
  date : Int
  title : List Char
deriving DecidableEq, Repr

/-- Creation-time conversion: source epoch seconds to standard epoch
milliseconds, the value passed for both file times. -/
def noteTimestamp (date : Int) : Int := (date + 978307200) * 1000

/-- Observable effects of one export run, in program order. -/
inductive Ev
  | mkdirp (p : Path)
  | writeFile (p : Path) (content : List Char)
  | setTimes (p : Path) (atime mtime : Int)
  | logSkipLocked (key : Int)
  | logNoteFailed (title : List Char)
  | logExportingTo (p : Path)
  | logExportedTo (p : Path)
  | logBatchError (e : JsError)
  | rmTree (p : Path)
  | copyTree (src dst : Path)
  | dbClose
  | unlinkFile (p : Path)
deriving DecidableEq, Repr

/-- Per-record step of the export loop: create the folder, then decompress;
on success write the converted content and set both file times; on a
data-error code log the locked-note skip; on any other error log the
processing failure. The loop continues in every case. -/
def processNote (exportDir : Path) (n : NoteRecord) : List Ev :=
  let folderPath := pathJoin exportDir n.folder
  let filePath := pathJoin folderPath (fileName n.key n.title)
  match gunzip n.data with
  | .ok text =>
    [Ev.mkdirp folderPath,
     Ev.writeFile filePath (convertToMarkdown text),
     Ev.setTimes filePath (noteTimestamp n.date) (noteTimestamp n.date)]
  | .error e =>
    if e.code = some (toL "Z_DATA_ERROR") then
      [Ev.mkdirp folderPath, Ev.logSkipLocked n.key]
    else
      [Ev.mkdirp folderPath, Ev.logNoteFailed n.title]

/-- Static context of one run of the export body after a successful
snapshot: invocation mode, destination roots, the temp-file stamp, and an
optional error modelling a throwing destination-replace step. -/
structure BatchCtx where
  fromCLI : Bool
  outputDirGiven : Bool
  repoPath : Path
  exportDir : Path
  tmpDir : Path
  stamp : List Char
  promoteFail : Option JsError
deriving Repr

/-- Name of the snapshot copy for a given stamp. -/
def tmpDbFile (stamp : List Char) : List Char :=
  toL "notes-db-" ++ stamp ++ toL ".sqlite"

/-- Name of the shared-memory sidecar for a given stamp. -/
def tmpShmFile (stamp : List Char) : List Char :=
  toL "notes-db-" ++ stamp ++ toL ".sqlite-shm"

/-- Name of the write-ahead-log sidecar for a given stamp. -/
def tmpWalFile (stamp : List Char) : List Char :=
  toL "notes-db-" ++ stamp ++ toL ".sqlite-wal"

/-- Unlink events for the snapshot copy and its sidecar files, issued on the
success path after the destination step. -/
def cleanupEvs (ctx : BatchCtx) : List Ev :=
  [Ev.unlinkFile (ctx.tmpDir ++ [tmpDbFile ctx.stamp]),
   Ev.unlinkFile (ctx.tmpDir ++ [tmpShmFile ctx.stamp]),
   Ev.unlinkFile (ctx.tmpDir ++ [tmpWalFile ctx.stamp])]

/-- Tail of the export body after the record loop: in watcher mode replace
the repository directory with the staging directory (or reject if that
step throws, in which case nothing is cleaned up); in CLI mode report the
staging path when none was requested; on the non-throwing paths close the
database and delete the snapshot and sidecar files, then resolve. -/
def batchTail (ctx : BatchCtx) : List Ev × Except JsError Unit :=
  if ctx.fromCLI = false then
    match ctx.promoteFail with
    | some e => ([Ev.logBatchError e, Ev.dbClose], .error e)
    | none =>
      ([Ev.rmTree ctx.repoPath, Ev.copyTree ctx.exportDir ctx.repoPath,
        Ev.rmTree ctx.exportDir, Ev.dbClose] ++ cleanupEvs ctx, .ok ())
  else
    ((if ctx.outputDirGiven then [] else [Ev.logExportedTo ctx.exportDir]) ++
      [Ev.dbClose] ++ cleanupEvs ctx, .ok ())

/-- Export body for one run over the records returned by the query: the
staging-directory creation, the per-record loop, and the tail. -/
def runBatch (ctx : BatchCtx) (notes : List NoteRecord) :
    List Ev × Except JsError Unit :=
  let pre := (if ctx.fromCLI then [Ev.logExportingTo ctx.exportDir] else []) ++
    [Ev.mkdirp ctx.exportDir]
  let body := (notes.map (processNote ctx.exportDir)).flatten
  ((pre ++ body ++ (batchTail ctx).1), (batchTail ctx).2)

/-- Events of the snapshot-acquisition retry loop. -/
inductive SnapEv
  | copyAttempt (name : List Char)
  | unlinkTmp (name : List Char)
  | waitMs (ms : Nat)
deriving DecidableEq, Repr

/-- Retry ceiling of the snapshot-acquisition loop. -/
def maxRetries : Nat := 3

/-- Snapshot temp-file name of a given attempt; the per-attempt wall-clock
stamp is modelled by the attempt index. -/
def attemptDbName (attempt : Nat) : List Char :=
  toL "notes-db-" ++ natDecimal attempt ++ toL ".sqlite"

/-- Snapshot-acquisition loop: each attempt copies to a fresh temp path; a
failing copy or verification deletes the copy and either rethrows a
wrapping error carrying the last cause once the ceiling is reached, or
waits two seconds and retries. -/
def acquireLoop (attemptErr : Nat → Option (List Char)) :
    Nat → Nat → List SnapEv × Except (List Char) Unit
  | 0, _ => ([], .ok ())
  | fuel + 1, attempt =>
    let nm := attemptDbName attempt
    match attemptErr attempt with
    | none => ([SnapEv.copyAttempt nm], .ok ())
    | some msg =>
      if attempt + 1 = maxRetries then
        ([SnapEv.copyAttempt nm, SnapEv.unlinkTmp nm],
         .error (toL "Failed to export notes after 3 attempts: " ++ msg))
      else
        let rest := acquireLoop attemptErr fuel (attempt + 1)
        ([SnapEv.copyAttempt nm, SnapEv.unlinkTmp nm, SnapEv.waitMs 2000] ++ rest.1,
         rest.2)

/-- Snapshot acquisition for one export run: the while loop entered with
attempt zero; attemptErr gives the cause message of each failing copy or
verification, none meaning the attempt succeeds. -/
def acquireSnapshot (attemptErr : Nat → Option (List Char)) :
    List SnapEv × Except (List Char) Unit :=
  acquireLoop attemptErr maxRetries 0

/-- Modelled from the spec: days from the civil epoch to a Gregorian
calendar date, used to give independent meaning to the date
2001-01-01T00:00:00Z named by the specification. -/
def daysFromCivil (y m d : Int) : Int :=
  let y2 := if m ≤ 2 then y - 1 else y
  let era := (if 0 ≤ y2 then y2 else y2 - 399) / 400
  let yoe := y2 - era * 400
  let mp := (m + 9) % 12
  let doy := (153 * mp + 2) / 5 + d - 1
  let doe := yoe * 365 + yoe / 4 - yoe / 100 + doy
  era * 146097 + doe - 719468

/-- Modelled from the spec: Unix seconds at midnight UTC of a civil date. -/
def unixSecondsAtMidnight (y m d : Int) : Int := 86400 * daysFromCivil y m d

/-! Helper lemmas. -/

theorem fdiv_four_mono {a b : Int} (h : a ≤ b) : a.fdiv 4 ≤ b.fdiv 4 := by
  rw [Int.fdiv_eq_ediv _ (by norm_num), Int.fdiv_eq_ediv _ (by norm_num)]
  exact Int.ediv_le_ediv (by norm_num) h

/-! Claim C4. -/

/-- C4: for every font size in a font-size-tagged heading wrapper, the
produced heading level equals the clamp to the range 1..6 of the floor of
(48 - fontSize) / 4; the level always lies in that range, and it is
monotonically non-increasing as the font size increases. -/
theorem c4_heading_level :
    (∀ s : Nat, headingLevel s = max 1 (min 6 (Int.fdiv (48 - (s : Int)) 4))) ∧
    (∀ s : Nat, 1 ≤ headingLevel s ∧ headingLevel s ≤ 6) ∧
    (∀ s t : Nat, s ≤ t → headingLevel t ≤ headingLevel s) := by
  refine ⟨fun s => rfl, fun s => ⟨le_max_left _ _, ?_⟩, fun s t h => ?_⟩
  · exact max_le (by norm_num) (min_le_left _ _)
  · exact max_le_max (le_refl 1)
      (min_le_min (le_refl 6) (fdiv_four_mono (by omega)))

/-- Witness for C4: the monotonicity part applied at sizes 30 and 40. -/
theorem c4_heading_level_witness : headingLevel 40 ≤ headingLevel 30 :=
  c4_heading_level.2.2 30 40 (by norm_num)

/-! Claim C1. -/

/-- C1: the per-record timestamp is the creation time shifted by the
978307200-second epoch offset, scaled to milliseconds; the successful
branch of the export loop sets both file times to that value; and a record
with date 0 yields exactly the millisecond timestamp of
2001-01-01T00:00:00Z. -/
theorem c1_timestamp :
    (∀ d : Int, noteTimestamp d = (d + 978307200) * 1000) ∧
    (∀ (dir : Path) (n : NoteRecord) (text : List Char),
       gunzip n.data = .ok text →
       processNote dir n =
         [Ev.mkdirp (pathJoin dir n.folder),
          Ev.writeFile (pathJoin (pathJoin dir n.folder) (fileName n.key n.title))
            (convertToMarkdown text),
          Ev.setTimes (pathJoin (pathJoin dir n.folder) (fileName n.key n.title))
            (noteTimestamp n.date) (noteTimestamp n.date)]) ∧
    noteTimestamp 0 = 1000 * unixSecondsAtMidnight 2001 1 1 := by
  refine ⟨fun d => rfl, fun dir n text h => ?_, by decide⟩
  unfold processNote
  rw [h]

/-- Witness for C1: the successful branch evaluated on a concrete record. -/
theorem c1_timestamp_witness :
    processNote [] ⟨1, toL "f", Payload.gzipped (toL "hi"), 0, toL "t"⟩ =
      [Ev.mkdirp (pathJoin [] (toL "f")),
       Ev.writeFile (pathJoin (pathJoin [] (toL "f")) (fileName 1 (toL "t")))
         (convertToMarkdown (toL "hi")),
       Ev.setTimes (pathJoin (pathJoin [] (toL "f")) (fileName 1 (toL "t")))
         (noteTimestamp 0) (noteTimestamp 0)] :=
  c1_timestamp.2.1 [] ⟨1, toL "f", Payload.gzipped (toL "hi"), 0, toL "t"⟩
    (toL "hi") rfl

/-! Claim C6. -/

/-- C6: the destination file name is the key, a separator, the sanitized
title and the markdown extension, where sanitization replaces every
character outside the alphanumeric class one-for-one with an underscore;
in particular the title Q3/Q4: Plans? yields Q3_Q4__Plans_. -/
theorem c6_filename :
    (∀ t : List Char, (sanitizeTitle t).length = t.length) ∧
    (∀ (t : List Char) (i : Nat),
       (sanitizeTitle t)[i]? =
         (t[i]?).map (fun c => if isAsciiAlnum c then c else '_')) ∧
    (∀ (k : Int) (t : List Char),
       fileName k t = intDecimal k ++ toL " - " ++ sanitizeTitle t ++ toL ".md") ∧
    sanitizeTitle (toL "Q3/Q4: Plans?") = toL "Q3_Q4__Plans_" ∧
    fileName 7 (toL "Q3/Q4: Plans?") = toL "7 - Q3_Q4__Plans_.md" := by
  refine ⟨fun t => List.length_map _ _, fun t i => ?_, fun k t => rfl, by decide, by decide⟩
  simp [sanitizeTitle, List.getElem?_map]

/-! Claim C2. -/

/-- C2 (amended): on a run in which copying or verifying the snapshot fails
on every attempt, acquisition makes exactly three attempts with a
two-second delay between consecutive attempts, deletes the partial main
copy after each failed attempt, and after exhausting the retries fails the
run with an error carrying the last underlying cause's message; the
sidecar files are not deleted on this path. -/
theorem c2_retry_exhaustion (attemptErr : Nat → Option (List Char))
    (m0 m1 m2 : List Char)
    (h0 : attemptErr 0 = some m0) (h1 : attemptErr 1 = some m1)
    (h2 : attemptErr 2 = some m2) :
    acquireSnapshot attemptErr =
      ([SnapEv.copyAttempt (attemptDbName 0), SnapEv.unlinkTmp (attemptDbName 0),
        SnapEv.waitMs 2000,
        SnapEv.copyAttempt (attemptDbName 1), SnapEv.unlinkTmp (attemptDbName 1),
        SnapEv.waitMs 2000,
        SnapEv.copyAttempt (attemptDbName 2), SnapEv.unlinkTmp (attemptDbName 2)],
       .error (toL "Failed to export notes after 3 attempts: " ++ m2)) := by
  unfold acquireSnapshot maxRetries
  unfold acquireLoop
  rw [h0]
  unfold acquireLoop
  rw [h1]
  unfold acquireLoop
  rw [h2]
  simp [maxRetries]

/-- Witness for C2: the amended retry theorem on an everywhere-failing run. -/
theorem c2_retry_exhaustion_witness :
    acquireSnapshot (fun _ => some (toL "disk full")) =
      ([SnapEv.copyAttempt (attemptDbName 0), SnapEv.unlinkTmp (attemptDbName 0),
        SnapEv.waitMs 2000,
        SnapEv.copyAttempt (attemptDbName 1), SnapEv.unlinkTmp (attemptDbName 1),
        SnapEv.waitMs 2000,
        SnapEv.copyAttempt (attemptDbName 2), SnapEv.unlinkTmp (attemptDbName 2)],
       .error (toL "Failed to export notes after 3 attempts: " ++ toL "disk full")) :=
  c2_retry_exhaustion (fun _ => some (toL "disk full")) _ _ _ rfl rfl rfl

/-- Counterexample for C2 as stated: on a run whose copy fails on every
attempt, no unlink of the shared-memory or write-ahead-log sidecar of the
first attempt's base name ever occurs; only the main copies are deleted. -/
theorem c2_sidecar_counterexample :
    SnapEv.unlinkTmp (toL "notes-db-0.sqlite-shm") ∉
      (acquireSnapshot (fun _ => some (toL "copy failed"))).1 ∧
    SnapEv.unlinkTmp (toL "notes-db-0.sqlite-wal") ∉
      (acquireSnapshot (fun _ => some (toL "copy failed"))).1 ∧
    ((acquireSnapshot (fun _ => some (toL "copy failed"))).1.filter
       (fun e => match e with | SnapEv.unlinkTmp _ => true | _ => false)) =
      [SnapEv.unlinkTmp (attemptDbName 0), SnapEv.unlinkTmp (attemptDbName 1),
       SnapEv.unlinkTmp (attemptDbName 2)] := by
  refine ⟨by decide, by decide, by decide⟩

/-! Claim C3. -/

/-- C3 (amended): a record whose payload fails decompression is reported by
the distinct locked-note skip exactly when the error carries the
data-error code, and by the generic per-record error log for any other
decompression error; in both cases the record contributes no file write,
every record after it is still processed, the run's outcome is exactly
what it would have been without the bad record, and on a tail without an
independent failure the run still succeeds. -/
theorem c3_decompression_failure_skipped (ctx : BatchCtx)
    (pre post : List NoteRecord) (n : NoteRecord) (e : JsError)
    (hg : gunzip n.data = .error e) :
    processNote ctx.exportDir n =
      [Ev.mkdirp (pathJoin ctx.exportDir n.folder),
       if e.code = some (toL "Z_DATA_ERROR") then Ev.logSkipLocked n.key
       else Ev.logNoteFailed n.title] ∧
    (runBatch ctx (pre ++ n :: post)).1 =
      (if ctx.fromCLI then [Ev.logExportingTo ctx.exportDir] else []) ++
        [Ev.mkdirp ctx.exportDir] ++
        (pre.map (processNote ctx.exportDir)).flatten ++
        [Ev.mkdirp (pathJoin ctx.exportDir n.folder),
         if e.code = some (toL "Z_DATA_ERROR") then Ev.logSkipLocked n.key
         else Ev.logNoteFailed n.title] ++
        (post.map (processNote ctx.exportDir)).flatten ++ (batchTail ctx).1 ∧
    (runBatch ctx (pre ++ n :: post)).2 = (runBatch ctx (pre ++ post)).2 ∧
    (ctx.promoteFail = none → (runBatch ctx (pre ++ n :: post)).2 = .ok ()) := by
  have hskip : processNote ctx.exportDir n =
      [Ev.mkdirp (pathJoin ctx.exportDir n.folder),
       if e.code = some (toL "Z_DATA_ERROR") then Ev.logSkipLocked n.key
       else Ev.logNoteFailed n.title] := by
    unfold processNote
    rw [hg]
    by_cases hc : e.code = some (toL "Z_DATA_ERROR") <;> simp [hc]
  refine ⟨hskip, ?_, rfl, fun hp => ?_⟩
  · unfold runBatch
    simp [hskip, List.map_append]
  · unfold runBatch batchTail
    rcases hcli : ctx.fromCLI with _ | _ <;> simp [hcli, hp]

/-- Witness for C3: a concrete two-record batch whose first record is
locked resolves successfully. -/
theorem c3_decompression_failure_skipped_witness :
    (runBatch ⟨false, false, [toL "repo"], [toL "exp"], [toL "tmp"], toL "0", none⟩
      ([] ++ ⟨1, toL "f", Payload.corruptZ, 0, toL "bad"⟩ ::
        [⟨2, toL "f", Payload.gzipped (toL "ok"), 0, toL "good"⟩])).2 = .ok () :=
  (c3_decompression_failure_skipped
    ⟨false, false, [toL "repo"], [toL "exp"], [toL "tmp"], toL "0", none⟩
    [] [⟨2, toL "f", Payload.gzipped (toL "ok"), 0, toL "good"⟩]
    ⟨1, toL "f", Payload.corruptZ, 0, toL "bad"⟩
    ⟨some (toL "Z_DATA_ERROR"), toL "incorrect header check"⟩
    rfl).2.2.2 rfl

/-- Counterexample for C3 as stated: a record whose payload fails
decompression with a buffer-error code rather than the data-error code is
reported by the generic per-record error log, not by the distinct
locked-or-corrupt skip. -/
theorem c3_other_code_counterexample :
    gunzip (Payload.failOther ⟨some (toL "Z_BUF_ERROR"), toL "unexpected end of file"⟩) =
      .error ⟨some (toL "Z_BUF_ERROR"), toL "unexpected end of file"⟩ ∧
    processNote [toL "exp"]
      ⟨5, toL "f",
       Payload.failOther ⟨some (toL "Z_BUF_ERROR"), toL "unexpected end of file"⟩,
       0, toL "t"⟩ =
      [Ev.mkdirp (pathJoin [toL "exp"] (toL "f")), Ev.logNoteFailed (toL "t")] ∧
    Ev.logSkipLocked 5 ∉ processNote [toL "exp"]
      ⟨5, toL "f",
       Payload.failOther ⟨some (toL "Z_BUF_ERROR"), toL "unexpected end of file"⟩,
       0, toL "t"⟩ := by
  refine ⟨rfl, by decide, by decide⟩
/-! String-search and trim lemmas for claims C5 and C10. -/

theorem findSub_some_occurs {needle l : List Char} {i : Nat}
    (h : findSub needle l = some i) : needle <:+: l := by
  induction l generalizing i with
  | nil =>
    unfold findSub at h
    by_cases he : needle.isEmpty
    · simp [List.isEmpty_iff] at he
      simp [he]
    · simp [he] at h
  | cons a t ih =>
    unfold findSub at h
    by_cases hp : needle.isPrefixOf (a :: t)
    · exact (List.isPrefixOf_iff_prefix.mp hp).isInfix
    · simp [hp] at h
      obtain ⟨j, hj, -⟩ := h
      exact List.infix_cons (ih hj)

theorem not_infix_indexOfFrom_eq_none {needle l : List Char}
    (h : ¬ needle <:+: l) : indexOfFrom l needle 0 = none := by
  unfold indexOfFrom
  rw [List.drop_zero]
  cases hf : findSub needle l with
  | none => rfl
  | some i => exact absurd (findSub_some_occurs hf) h

theorem findSub_singleton_eq_none {c : Char} {m : List Char}
    (h : c ∉ m) : findSub [c] m = none := by
  induction m with
  | nil => rfl
  | cons a t ih =>
    unfold findSub
    have hca : ¬ [c].isPrefixOf (a :: t) := by
      simp [List.isPrefixOf_iff_prefix, List.prefix_cons_iff]
      intro hc
      exact absurd (hc ▸ List.mem_cons_self a t) h
    simp [hca, ih (fun hm => h (List.mem_cons_of_mem a hm))]

theorem dropWhile_dropWhile (p : Char → Bool) (l : List Char) :
    (l.dropWhile p).dropWhile p = l.dropWhile p := by
  induction l with
  | nil => rfl
  | cons a t ih => by_cases h : p a <;> simp [List.dropWhile_cons, h, ih]

theorem trimStart_eq_self_of_leading {m t : List Char} (hp : t <+: m)
    (hm : trimStart m = m) : trimStart t = t := by
  cases t with
  | nil => rfl
  | cons c r =>
    obtain ⟨u, hu⟩ := hp
    have hc : isJsWs c = false := by
      by_contra hcc
      have hc' : isJsWs c = true := by
        cases h : isJsWs c
        · exact absurd h hcc
        · rfl
      have hm' : trimStart m = trimStart (r ++ u) := by
        rw [← hu]
        simp [trimStart, List.dropWhile_cons, hc']
      have hlen : (trimStart m).length ≤ (r ++ u).length := by
        rw [hm']
        exact (List.dropWhile_suffix isJsWs).length_le
      rw [hm, ← hu] at hlen
      simp at hlen
    simp [trimStart, List.dropWhile_cons, hc]

theorem trimEnd_leading (m : List Char) : trimEnd m <+: m := by
  unfold trimEnd
  have h : (m.reverse.dropWhile isJsWs).reverse <+: m.reverse.reverse :=
    List.reverse_prefix.mpr (List.dropWhile_suffix isJsWs)
  rwa [List.reverse_reverse] at h

theorem trimStart_suffix (m : List Char) : trimStart m <:+ m :=
  List.dropWhile_suffix isJsWs

theorem jsTrim_occurs_within (l : List Char) : jsTrim l <:+: l :=
  (trimEnd_leading (trimStart l)).isInfix.trans (trimStart_suffix l).isInfix

theorem trimStart_trimStart (l : List Char) : trimStart (trimStart l) = trimStart l :=
  dropWhile_dropWhile isJsWs l

theorem trimEnd_trimEnd (l : List Char) : trimEnd (trimEnd l) = trimEnd l := by
  unfold trimEnd
  rw [List.reverse_reverse, dropWhile_dropWhile]

theorem jsTrim_idem (l : List Char) : jsTrim (jsTrim l) = jsTrim l := by
  unfold jsTrim
  rw [trimStart_eq_self_of_leading (trimEnd_leading (trimStart l)) (trimStart_trimStart l),
    trimEnd_trimEnd]

/-! Claim C5. -/

/-- C5: on an input containing no recognized binary start marker, conversion
returns the input trimmed of leading and trailing whitespace, and hence
conversion is idempotent on such an output: converting it again returns it
unchanged. -/
theorem c5_passthrough_idempotent (input : List Char)
    (h : ¬ startMarker <:+: input) :
    convertToMarkdown input = jsTrim input ∧
    convertToMarkdown (convertToMarkdown input) = convertToMarkdown input := by
  have h1 : convertToMarkdown input = jsTrim input := by
    unfold convertToMarkdown
    rw [not_infix_indexOfFrom_eq_none h]
  refine ⟨h1, ?_⟩
  rw [h1]
  have h2 : ¬ startMarker <:+: jsTrim input :=
    fun hin => h (hin.trans (jsTrim_occurs_within input))
  show convertToMarkdown (jsTrim input) = jsTrim input
  unfold convertToMarkdown
  rw [not_infix_indexOfFrom_eq_none h2]
  exact jsTrim_idem input

/-- Witness for C5: a marker-free rendered Markdown string. -/
theorem c5_passthrough_idempotent_witness :
    convertToMarkdown (toL "  **Hello** world ") = jsTrim (toL "  **Hello** world ") ∧
    convertToMarkdown (convertToMarkdown (toL "  **Hello** world ")) =
      convertToMarkdown (toL "  **Hello** world ") :=
  c5_passthrough_idempotent (toL "  **Hello** world ") (by decide)

/-! Claim C10. -/

/-- C10: if the input contains the start marker at its first occurrence s but
no u0012 character at any later index, conversion falls back to returning
the whole input trimmed, the same pass-through result as when the marker
is absent. -/
theorem c10_no_content_start (input : List Char) (s : Nat)
    (hm : indexOfFrom input startMarker 0 = some s)
    (h12 : ∀ i : Nat, s < i → input[i]? ≠ some '\u0012') :
    convertToMarkdown input = jsTrim input := by
  have hnone : indexOfFrom input ['\u0012'] (s + 1) = none := by
    unfold indexOfFrom
    have hmem : '\u0012' ∉ input.drop (s + 1) := by
      intro hmem
      obtain ⟨i, hi⟩ := List.mem_iff_getElem?.mp hmem
      rw [List.getElem?_drop] at hi
      exact h12 (s + 1 + i) (by omega) hi
    rw [findSub_singleton_eq_none hmem]
    rfl
  unfold convertToMarkdown
  simp only [hm, hnone]

/-- Witness for C10: the start marker followed by plain text free of the
content-start byte. -/
theorem c10_no_content_start_witness :
    convertToMarkdown (startMarker ++ toL "abc") = jsTrim (startMarker ++ toL "abc") := by
  refine c10_no_content_start (startMarker ++ toL "abc") 0 (by decide) ?_
  intro i hi hsome
  have hlen : (startMarker ++ toL "abc").length = 8 := by decide
  by_cases hb : i < 8
  · interval_cases i <;> revert hsome <;> decide
  · rw [List.getElem?_eq_none (by omega)] at hsome
    exact Option.noConfusion hsome

/-! Path lemmas for claims C9 and C7. -/

theorem mem_splitSlash_no_slash :
    ∀ {l s : List Char}, s ∈ splitSlash l → '/' ∉ s := by
  intro l
  induction l with
  | nil =>
    intro s hs
    unfold splitSlash at hs
    simp at hs
    simp [hs]
  | cons c rest ih =>
    intro s hs
    unfold splitSlash at hs
    by_cases hc : c = '/'
    · simp [hc] at hs
      rcases hs with hs | hs
      · simp [hs]
      · exact ih hs
    · simp [hc] at hs
      rcases hsp : splitSlash rest with _ | ⟨s', ss⟩
      · rw [hsp] at hs
        simp at hs
        rw [hs]
        simp only [List.mem_singleton]
        exact fun h' => hc h'.symm
      · rw [hsp] at hs
        simp at hs
        rcases hs with hs | hs
        · rw [hs]
          intro hmem
          rcases List.mem_cons.mp hmem with h | h
          · exact hc h.symm
          · exact ih (hsp ▸ List.mem_cons_self s' ss) h
        · exact ih (hsp ▸ List.mem_cons_of_mem s' hs)

theorem mem_foldl_normStep :
    ∀ {segs : List (List Char)} {acc : Path} {x : List Char},
      x ∈ List.foldl normStep acc segs → x ∈ acc ∨ x ∈ segs := by
  intro segs
  induction segs with
  | nil => intro acc x h; exact Or.inl h
  | cons sg rest ih =>
    intro acc x h
    rw [List.foldl_cons] at h
    rcases ih h with h' | h'
    · unfold normStep at h'
      split at h'
      · exact Or.inl h'
      · split at h'
        · exact Or.inl (List.dropLast_subset acc h')
        · rcases List.mem_append.mp h' with h'' | h''
          · exact Or.inl h''
          · simp at h''
            exact Or.inr (h'' ▸ List.mem_cons_self sg rest)
    · exact Or.inr (List.mem_cons_of_mem sg h')

theorem mem_pathJoin {base : Path} {s x : List Char}
    (h : x ∈ pathJoin base s) : x ∈ base ∨ x ∈ splitSlash s :=
  mem_foldl_normStep h

theorem foldl_normStep_no_dotdot :
    ∀ {segs : List (List Char)}, (∀ seg ∈ segs, seg ≠ ['.', '.']) →
      ∀ acc : Path, ∃ tail, List.foldl normStep acc segs = acc ++ tail := by
  intro segs
  induction segs with
  | nil => exact fun _ acc => ⟨[], by simp⟩
  | cons sg rest ih =>
    intro hseg acc
    have hsg : sg ≠ ['.', '.'] := hseg sg (List.mem_cons_self sg rest)
    have hrest : ∀ seg ∈ rest, seg ≠ ['.', '.'] :=
      fun seg hs => hseg seg (List.mem_cons_of_mem sg hs)
    rw [List.foldl_cons]
    by_cases he : sg = [] ∨ sg = ['.']
    · have hn : normStep acc sg = acc := by
        unfold normStep
        rw [if_pos he]
      rw [hn]
      exact ih hrest acc
    · have hn : normStep acc sg = acc ++ [sg] := by
        unfold normStep
        rw [if_neg he, if_neg hsg]
      rw [hn]
      obtain ⟨tail, ht⟩ := ih hrest (acc ++ [sg])
      exact ⟨[sg] ++ tail, by rw [ht, List.append_assoc]⟩

theorem pathJoin_prefix_of_no_dotdot {base : Path} {s : List Char}
    (h : ∀ seg ∈ splitSlash s, seg ≠ ['.', '.']) : base <+: pathJoin base s := by
  obtain ⟨tail, ht⟩ := foldl_normStep_no_dotdot h base
  exact ⟨tail, ht.symm⟩

theorem splitSlash_no_slash {l : List Char} (h : '/' ∉ l) : splitSlash l = [l] := by
  induction l with
  | nil => rfl
  | cons c rest ih =>
    unfold splitSlash
    have hc : ¬ c = '/' := by
      intro hcc
      apply h
      rw [hcc]
      exact List.mem_cons_self '/' rest
    rw [if_neg hc, ih (fun hm => h (List.mem_cons_of_mem c hm))]

theorem pathJoin_single {base : Path} {s : List Char} (hs : '/' ∉ s)
    (h0 : s ≠ []) (h1 : s ≠ ['.']) (h2 : s ≠ ['.', '.']) :
    pathJoin base s = base ++ [s] := by
  unfold pathJoin
  rw [splitSlash_no_slash hs]
  simp [normStep, h0, h1, h2]

/-! Claim C9. -/

/-- C9: the per-record step creates the directory obtained by joining the
export root with the folder display name verbatim, with no sanitization;
a folder name containing a separator yields a layout different from a
single level under the root, and a parent-directory folder name escapes
the root entirely. -/
theorem c9_folder_joined_verbatim :
    (∀ (dir : Path) (n : NoteRecord),
       (processNote dir n).head? = some (Ev.mkdirp (pathJoin dir n.folder))) ∧
    (∀ (root : Path) (folder : List Char),
       (∀ t ∈ root, '/' ∉ t) → '/' ∈ folder →
       pathJoin root folder ≠ root ++ [folder]) ∧
    pathJoin [toL "export"] (toL "../secret") = [toL "secret"] ∧
    ¬ [toL "export"] <+: pathJoin [toL "export"] (toL "../secret") ∧
    pathJoin [toL "export"] (toL "a/b") = [toL "export", toL "a", toL "b"] := by
  refine ⟨fun dir n => ?_, fun root folder hroot hfold heq => ?_, by decide, by decide, by decide⟩
  · unfold processNote
    rcases gunzip n.data with e | text
    · by_cases hcode : e.code = some (toL "Z_DATA_ERROR") <;> simp [hcode]
    · rfl
  · have hmem : folder ∈ pathJoin root folder := by
      rw [heq]
      exact List.mem_append_right root (List.mem_singleton.mpr rfl)
    rcases mem_pathJoin hmem with h | h
    · exact hroot folder h hfold
    · exact mem_splitSlash_no_slash h hfold

/-- Witness for C9: the separator case at a concrete root and folder. -/
theorem c9_folder_joined_verbatim_witness :
    pathJoin [toL "export"] (toL "a/b") ≠ [toL "export"] ++ [toL "a/b"] :=
  c9_folder_joined_verbatim.2.1 [toL "export"] (toL "a/b") (by decide) (by decide)

/-! Character-level facts about the generated file names. -/

theorem isDigitCh_digitCh (d : Nat) : isDigitCh (digitCh d) = true := by
  unfold digitCh
  repeat' split
  all_goals decide

theorem mem_natDecimalAux :
    ∀ {f n : Nat} {acc : List Char} {c : Char},
      c ∈ natDecimalAux f n acc → c ∈ acc ∨ isDigitCh c = true := by
  intro f
  induction f with
  | zero => intro n acc c h; exact Or.inl h
  | succ f ih =>
    intro n acc c h
    unfold natDecimalAux at h
    by_cases hn : n = 0
    · rw [if_pos hn] at h
      exact Or.inl h
    · rw [if_neg hn] at h
      rcases ih h with h' | h'
      · rcases List.mem_cons.mp h' with h'' | h''
        · exact Or.inr (h'' ▸ isDigitCh_digitCh (n % 10))
        · exact Or.inl h''
      · exact Or.inr h'

theorem mem_natDecimal {n : Nat} {c : Char} (h : c ∈ natDecimal n) :
    isDigitCh c = true := by
  unfold natDecimal at h
  by_cases hn : n = 0
  · rw [if_pos hn] at h
    simp at h
    rw [h]
    decide
  · rw [if_neg hn] at h
    rcases mem_natDecimalAux h with h' | h'
    · exact absurd h' (List.not_mem_nil c)
    · exact h'

theorem mem_intDecimal {k : Int} {c : Char} (h : c ∈ intDecimal k) :
    isDigitCh c = true ∨ c = '-' := by
  cases k with
  | ofNat m => exact Or.inl (mem_natDecimal h)
  | negSucc m =>
    rcases List.mem_cons.mp h with h' | h'
    · exact Or.inr h'
    · exact Or.inl (mem_natDecimal h')

theorem slash_not_mem_sanitizeTitle {t : List Char} : '/' ∉ sanitizeTitle t := by
  intro h
  obtain ⟨c, -, hc⟩ := List.mem_map.mp h
  by_cases ha : isAsciiAlnum c
  · rw [if_pos ha] at hc
    rw [hc] at ha
    exact absurd ha (by decide)
  · rw [if_neg ha] at hc
    exact absurd hc (by decide)

theorem slash_not_mem_fileName {k : Int} {t : List Char} : '/' ∉ fileName k t := by
  intro h
  unfold fileName at h
  simp only [List.append_assoc, List.mem_append] at h
  rcases h with h | h | h | h
  · rcases mem_intDecimal h with h' | h'
    · exact absurd h' (by decide)
    · exact absurd h' (by decide)
  · exact absurd h (by decide)
  · exact slash_not_mem_sanitizeTitle h
  · exact absurd h (by decide)

theorem natDecimalAux_length :
    ∀ {f n : Nat} {acc : List Char}, acc.length ≤ (natDecimalAux f n acc).length := by
  intro f
  induction f with
  | zero => intro n acc; exact le_refl _
  | succ f ih =>
    intro n acc
    unfold natDecimalAux
    by_cases hn : n = 0
    · rw [if_pos hn]
    · rw [if_neg hn]
      calc acc.length ≤ (digitCh (n % 10) :: acc).length := by simp
        _ ≤ _ := ih

theorem natDecimal_length {n : Nat} : 1 ≤ (natDecimal n).length := by
  unfold natDecimal
  by_cases hn : n = 0
  · rw [if_pos hn]
    decide
  · rw [if_neg hn]
    rcases n with _ | m
    · exact absurd rfl hn
    · unfold natDecimalAux
      rw [if_neg hn]
      calc 1 ≤ (digitCh ((m + 1) % 10) :: ([] : List Char)).length := by simp
        _ ≤ _ := natDecimalAux_length

theorem intDecimal_length {k : Int} : 1 ≤ (intDecimal k).length := by
  cases k with
  | ofNat m => exact natDecimal_length
  | negSucc m => simp [intDecimal]

theorem fileName_length {k : Int} {t : List Char} : 7 ≤ (fileName k t).length := by
  unfold fileName
  simp only [List.length_append]
  have h1 := intDecimal_length (k := k)
  have h2 : (toL " - ").length = 3 := rfl
  have h3 : (toL ".md").length = 3 := rfl
  omega

theorem pathJoin_fileName {base : Path} {k : Int} {t : List Char} :
    pathJoin base (fileName k t) = base ++ [fileName k t] := by
  have hl := fileName_length (k := k) (t := t)
  refine pathJoin_single slash_not_mem_fileName ?_ ?_ ?_ <;>
    intro h <;> rw [h] at hl <;> simp at hl

/-! Mutation footprint of the export events, for claim C7. -/

/-- Paths whose filesystem state an event can change. -/
def mutPaths : Ev → List Path
  | .mkdirp p => [p]
  | .writeFile p _ => [p]
  | .setTimes p _ _ => [p]
  | .rmTree p => [p]
  | .copyTree _ dst => [dst]
  | .unlinkFile p => [p]
  | _ => []

theorem processNote_mutPaths {exportDir : Path} {n : NoteRecord}
    (hn : ∀ seg ∈ splitSlash n.folder, seg ≠ ['.', '.'])
    {e : Ev} (he : e ∈ processNote exportDir n) {p : Path} (hp : p ∈ mutPaths e) :
    exportDir <+: p := by
  have hfp : exportDir <+: pathJoin exportDir n.folder :=
    pathJoin_prefix_of_no_dotdot hn
  have hfile : exportDir <+:
      pathJoin (pathJoin exportDir n.folder) (fileName n.key n.title) := by
    rw [pathJoin_fileName]
    exact hfp.trans (List.prefix_append _ _)
  unfold processNote at he
  cases hge : gunzip n.data with
  | ok text =>
    rw [hge] at he
    simp only [List.mem_cons, List.not_mem_nil, or_false] at he
    rcases he with he | he | he <;> rw [he] at hp <;>
      simp only [mutPaths, List.mem_singleton] at hp <;> rw [hp]
    · exact hfp
    · exact hfile
    · exact hfile
  | error err =>
    rw [hge] at he
    by_cases hcode : err.code = some (toL "Z_DATA_ERROR") <;>
      simp only [hcode, if_pos, if_neg, List.mem_cons, List.not_mem_nil, or_false,
        reduceIte] at he <;>
      rcases he with he | he <;> rw [he] at hp <;>
      simp only [mutPaths, List.mem_singleton, List.not_mem_nil] at hp
    · rw [hp]
      exact hfp
    · rw [hp]
      exact hfp

theorem cleanupEvs_mut {ctx : BatchCtx} {e : Ev} (he : e ∈ cleanupEvs ctx)
    {p : Path} (hp : p ∈ mutPaths e) : ∃ nm, p = ctx.tmpDir ++ [nm] := by
  simp only [cleanupEvs, List.mem_cons, List.not_mem_nil, or_false] at he
  rcases he with he | he | he <;> rw [he] at hp <;>
    simp only [mutPaths, List.mem_singleton] at hp <;> exact ⟨_, hp⟩

/-! Claim C7. -/

/-- C7: a CLI-invoked export mutates only paths under the staging directory
or the temp directory, never anything comparable with the tracked
repository path; a watcher-triggered export whose destination-replace step
does not itself fail produces a trace that mutates the repository only in
the final replace block: all staging writes precede it and are
repository-disjoint, and the block is exactly remove-destination,
copy-staging-into-place, remove-staging. -/
theorem c7_staging_and_promotion (ctx : BatchCtx) (notes : List NoteRecord)
    (hfold : ∀ n ∈ notes, ∀ seg ∈ splitSlash n.folder, seg ≠ ['.', '.'])
    (hre1 : ¬ ctx.repoPath <+: ctx.exportDir)
    (hre2 : ¬ ctx.exportDir <+: ctx.repoPath)
    (htmp : ∀ nm : List Char, ¬ ctx.repoPath <+: ctx.tmpDir ++ [nm] ∧
        ¬ ctx.tmpDir ++ [nm] <+: ctx.repoPath) :
    (ctx.fromCLI = true →
       ∀ e ∈ (runBatch ctx notes).1, ∀ p ∈ mutPaths e,
         ¬ ctx.repoPath <+: p ∧ ¬ p <+: ctx.repoPath) ∧
    (ctx.fromCLI = false → ctx.promoteFail = none →
       ∃ pre,
         (runBatch ctx notes).1 =
           pre ++ [Ev.rmTree ctx.repoPath, Ev.copyTree ctx.exportDir ctx.repoPath,
             Ev.rmTree ctx.exportDir, Ev.dbClose] ++ cleanupEvs ctx ∧
         ∀ e ∈ pre, ∀ p ∈ mutPaths e,
           ¬ ctx.repoPath <+: p ∧ ¬ p <+: ctx.repoPath) := by
  have hexp : ∀ q : Path, ctx.exportDir <+: q →
      ¬ ctx.repoPath <+: q ∧ ¬ q <+: ctx.repoPath := by
    intro q hq
    refine ⟨fun hrq => ?_, fun hqr => hre2 (hq.trans hqr)⟩
    rcases List.prefix_or_prefix_of_prefix hrq hq with h | h
    · exact hre1 h
    · exact hre2 h
  have hbody : ∀ e ∈ (notes.map (processNote ctx.exportDir)).flatten,
      ∀ p ∈ mutPaths e, ctx.exportDir <+: p := by
    intro e he p hp
    obtain ⟨l, hl, hel⟩ := List.mem_flatten.mp he
    obtain ⟨n, hn, rfl⟩ := List.mem_map.mp hl
    exact processNote_mutPaths (hfold n hn) hel hp
  constructor
  · intro hcli e he p hp
    unfold runBatch batchTail at he
    rw [hcli] at he
    simp only [Bool.true_eq_false, if_false, if_true, List.append_assoc,
      List.mem_append, List.mem_cons, List.not_mem_nil, or_false, false_or] at he
    rcases he with he | he | he | he
    · rw [he] at hp
      simp only [mutPaths, List.not_mem_nil] at hp
    · rw [he] at hp
      simp only [mutPaths, List.mem_singleton] at hp
      rw [hp]
      exact hexp ctx.exportDir (List.prefix_refl _)
    · exact hexp p (hbody e he p hp)
    · rcases he with he | he
      · rcases hodg : ctx.outputDirGiven with _ | _
        · rw [hodg] at he
          simp only [Bool.false_eq_true, if_false] at he
          simp only [List.mem_singleton] at he
          rw [he] at hp
          simp only [mutPaths, List.not_mem_nil] at hp
        · rw [hodg] at he
          simp only [if_true] at he
          exact absurd he (List.not_mem_nil e)
      · rcases he with he | he
        · rw [he] at hp
          simp only [mutPaths, List.not_mem_nil] at hp
        · obtain ⟨nm, hnm⟩ := cleanupEvs_mut he hp
          rw [hnm]
          exact htmp nm
  · intro hwat hpf
    refine ⟨[Ev.mkdirp ctx.exportDir] ++ (notes.map (processNote ctx.exportDir)).flatten,
      ?_, ?_⟩
    · unfold runBatch batchTail
      rw [hwat, hpf]
      simp [List.append_assoc]
    · intro e he p hp
      simp only [List.mem_append, List.mem_singleton] at he
      rcases he with he | he
      · rw [he] at hp
        simp only [mutPaths, List.mem_singleton] at hp
        rw [hp]
        exact hexp ctx.exportDir (List.prefix_refl _)
      · exact hexp p (hbody e he p hp)

/-- Witness for C7: the CLI part applied to a concrete context and batch,
evaluated at the staging-folder creation event. -/
theorem c7_staging_and_promotion_witness :
    ¬ [toL "repo"] <+: pathJoin [toL "exp"] (toL "f") ∧
    ¬ pathJoin [toL "exp"] (toL "f") <+: [toL "repo"] :=
  (c7_staging_and_promotion
    ⟨true, true, [toL "repo"], [toL "exp"], [toL "tmp"], toL "0", none⟩
    [⟨1, toL "f", Payload.gzipped (toL "hi"), 0, toL "t"⟩]
    (by decide) (by decide) (by decide)
    (by
      intro nm
      constructor
      · rintro ⟨t, ht⟩
        simp only [List.cons_append, List.nil_append, List.cons.injEq] at ht
        exact absurd ht.1 (by decide)
      · intro h
        have hlen := h.length_le
        simp at hlen)).1 rfl
    (Ev.mkdirp (pathJoin [toL "exp"] (toL "f"))) (by decide)
    (pathJoin [toL "exp"] (toL "f")) (by decide)

/-! Claim C8. -/

/-- Test whether an event is a file unlink. -/
def isUnlinkEv : Ev → Bool
  | .unlinkFile _ => true
  | _ => false

/-- Context of a watcher run whose destination-replace step throws. -/
def c8FailCtx : BatchCtx :=
  ⟨false, false, [toL "repo"], [toL "exp"], [toL "tmp"], toL "0",
    some ⟨none, toL "rm failed"⟩⟩

/-- Context of the same run with a non-throwing destination-replace step. -/
def c8OkCtx : BatchCtx :=
  ⟨false, false, [toL "repo"], [toL "exp"], [toL "tmp"], toL "0", none⟩

/-- The batch used for the C8 evaluation. -/
def c8Notes : List NoteRecord :=
  [⟨1, toL "f", Payload.gzipped (toL "hi"), 0, toL "t"⟩]

/-- C8 evaluation: on the exit path where the destination-replace step
throws after record reading has finished, the run rejects and the trace
contains no unlink at all, so the snapshot copy and its sidecar files are
left behind; on the success path of the same batch all three are
deleted. -/
theorem c8_no_cleanup_on_reject :
    (runBatch c8FailCtx c8Notes).2 = .error ⟨none, toL "rm failed"⟩ ∧
    (runBatch c8FailCtx c8Notes).1.filter isUnlinkEv = [] ∧
    (runBatch c8OkCtx c8Notes).1.filter isUnlinkEv =
      [Ev.unlinkFile ([toL "tmp"] ++ [tmpDbFile (toL "0")]),
       Ev.unlinkFile ([toL "tmp"] ++ [tmpShmFile (toL "0")]),
       Ev.unlinkFile ([toL "tmp"] ++ [tmpWalFile (toL "0")])] := by
  refine ⟨rfl, by decide, by decide⟩

end Ngit
